import Mathlib

/-!
Verification of the receipt-text extraction engine of the xpnse backend.

The engine is the JavaScript function `parseReceiptText` in
`src/services/ocr.js` (lines 184-315).  It is a pure computation from a raw
OCR text string (plus the process wall clock, which we inject explicitly as
a `CalDate` parameter, as the specification directs for deterministic
testing) to a structured receipt record.

The shallow embedding below works on `List Char` (JavaScript strings),
models monetary amounts as exact rationals (`parseFloat` always receives
strings of digits and dots here, so the float values are exact up to the
usual double-rounding, which no verified property depends on), and models
the five JavaScript regular expressions by a small backtracking matcher
whose priority order (leftmost position, first alternative, greedy /
lazy quantifiers) follows the JavaScript semantics.
-/

/-- Characters of a JavaScript string. -/
abbrev Str := List Char

/-- Character list of a Lean string literal. -/
def cs (s : String) : Str := s.data

/-- Whitespace characters recognized by `\s`, `trim` and friends
(ASCII fragment of the JavaScript whitespace class). -/
def isWsC (c : Char) : Bool :=
  c == ' ' || c == '\t' || c == '\n' || c == '\r' || c == '\x0b' || c == '\x0c'

/-- Digit test for the `\d` class. -/
def isDigitC (c : Char) : Bool := c.isDigit

/-- The `[\d,]` class used by the amount patterns. -/
def isDigitComma (c : Char) : Bool := c.isDigit || c == ','

/-- Lower-case a JavaScript string (`toLowerCase`, ASCII fragment). -/
def toLowerL (s : Str) : Str := s.map Char.toLower

/-- JavaScript `String.prototype.trim`. -/
def jsTrim (s : Str) : Str :=
  ((s.dropWhile isWsC).reverse.dropWhile isWsC).reverse

/-- JavaScript `text.split('\n')`: split at every newline, keeping empty
pieces. -/
def jsSplit : Str → List Str
  | [] => [[]]
  | c :: rest =>
    if c == '\n' then [] :: jsSplit rest
    else
      match jsSplit rest with
      | [] => [[c]]
      | l :: ls => (c :: l) :: ls

/-- Split at `-` and `/` (JavaScript `split(/[-\/]/)`). -/
def splitSep : Str → List Str
  | [] => [[]]
  | c :: rest =>
    if c == '-' || c == '/' then [] :: splitSep rest
    else
      match splitSep rest with
      | [] => [[c]]
      | l :: ls => (c :: l) :: ls

/-- Substring test, JavaScript `haystack.includes(needle)`. -/
def containsSub (hay nee : Str) : Bool :=
  if nee.isPrefixOf hay then true
  else
    match hay with
    | [] => false
    | _ :: t => containsSub t nee

/-- Numeric value of a run of decimal digits (`parseInt` on a digit run). -/
def digitsVal (s : Str) : Nat :=
  s.foldl (fun a c => a * 10 + (c.toNat - 48)) 0

/-- Decimal digit characters of a natural number, helper recursion. -/
def natDigitsGo : Nat → Nat → Str → Str
  | 0, _, acc => acc
  | fuel + 1, m, acc =>
    let d := Char.ofNat (48 + m % 10)
    if m < 10 then d :: acc
    else natDigitsGo fuel (m / 10) (d :: acc)

/-- Decimal digit characters of a natural number. -/
def natDigits (n : Nat) : Str := natDigitsGo (n + 1) n []

/-- JavaScript `parseFloat` restricted to the character material it receives
in this engine (digits and dots, after commas and currency marks are
stripped): the longest valid numeric prefix is parsed; an empty numeric
prefix yields `NaN`, modeled as `none`. -/
def jsParseFloat (s : Str) : Option Rat :=
  let intDigits := s.takeWhile Char.isDigit
  let rest := s.drop intDigits.length
  match rest with
  | '.' :: r2 =>
    let fracDigits := r2.takeWhile Char.isDigit
    if intDigits.isEmpty && fracDigits.isEmpty then none
    else
      some (mkRat (digitsVal intDigits * 10 ^ fracDigits.length +
        digitsVal fracDigits) (10 ^ fracDigits.length))
  | _ => if intDigits.isEmpty then none else some (digitsVal intDigits)

/-- JavaScript `s.replace(/,/g, '')`. -/
def removeCommas (s : Str) : Str := s.filter (fun c => !(c == ','))

/-- JavaScript `s.replace(/[^\d.]/g, '')`. -/
def keepDigitsDots (s : Str) : Str := s.filter (fun c => c.isDigit || c == '.')

/-- Regular-expression abstract syntax, covering exactly the constructs of
the five receipt regexes: character classes, sequencing, prioritized
alternation, greedy star / bounded repetition over a character class, a
lazy one-or-more over a character class, greedy option, and numbered
capture groups (the receipt regexes use at most two, never nested). -/
inductive RE where
  | eps : RE
  | fails : RE
  | one : (Char → Bool) → RE
  | seq : RE → RE → RE
  | alt : RE → RE → RE
  | starG : (Char → Bool) → RE
  | repG : (Char → Bool) → Nat → Nat → RE
  | plusL : (Char → Bool) → RE
  | opt : RE → RE
  | grp : Nat → RE → RE

/-- One backtracking outcome: the unconsumed suffix plus the contents of
capture groups 1 and 2. -/
structure MOut where
  rest : Str
  c1 : Option Str
  c2 : Option Str
deriving DecidableEq

/-- First-defined choice between two optional captures. -/
def mergeOpt : Option Str → Option Str → Option Str
  | some a, _ => some a
  | none, b => b

/-- Length of the maximal prefix satisfying `p`. -/
def runLen (p : Char → Bool) (s : Str) : Nat := (s.takeWhile p).length

/-- Suffixes left by consuming between `lo` and `hi` characters of class `p`,
longest consumption first (greedy priority order). -/
def greedyDrops (p : Char → Bool) (s : Str) (lo hi : Nat) : List Str :=
  let top := min hi (runLen p s)
  if top < lo then []
  else (List.range (top + 1 - lo)).map (fun j => s.drop (top - j))

/-- Suffixes left by consuming at least one character of class `p`,
shortest consumption first (lazy priority order). -/
def lazyDrops (p : Char → Bool) (s : Str) : List Str :=
  (List.range (runLen p s)).map (fun j => s.drop (j + 1))

/-- All backtracking outcomes of matching `r` at the head of `s`, in the
priority order of the JavaScript engine (first alternative first, greedy
quantifiers longest first, lazy quantifiers shortest first). -/
def mtch : RE → Str → List MOut
  | .eps, s => [⟨s, none, none⟩]
  | .fails, _ => []
  | .one p, s =>
    match s with
    | [] => []
    | c :: r => if p c then [⟨r, none, none⟩] else []
  | .seq a b, s =>
    (mtch a s).flatMap (fun o =>
      (mtch b o.rest).map (fun o2 =>
        ⟨o2.rest, mergeOpt o.c1 o2.c1, mergeOpt o.c2 o2.c2⟩))
  | .alt a b, s => mtch a s ++ mtch b s
  | .starG p, s => (greedyDrops p s 0 s.length).map (fun r => ⟨r, none, none⟩)
  | .repG p lo hi, s => (greedyDrops p s lo hi).map (fun r => ⟨r, none, none⟩)
  | .plusL p, s => (lazyDrops p s).map (fun r => ⟨r, none, none⟩)
  | .opt a, s => mtch a s ++ [⟨s, none, none⟩]
  | .grp i a, s =>
    (mtch a s).map (fun o =>
      let cap := s.take (s.length - o.rest.length)
      if i == 1 then ⟨o.rest, some cap, o.c2⟩ else ⟨o.rest, o.c1, some cap⟩)

/-- Leftmost match: scan start positions left to right, and at the first
position with any outcome take the highest-priority one (JavaScript
`String.prototype.match` without the global flag). Returns the matching
suffix together with that outcome. -/
def scanFirst (r : RE) : Str → Option (Str × MOut)
  | [] =>
    match (mtch r []).head? with
    | some o => some ([], o)
    | none => none
  | c :: t =>
    match (mtch r (c :: t)).head? with
    | some o => some (c :: t, o)
    | none => scanFirst r t

/-- Whole text of the leftmost match together with capture group 1
(`match[0]` and `match[1]`). -/
def firstMatch (r : RE) (s : Str) : Option (Str × Option Str) :=
  (scanFirst r s).map (fun so =>
    (so.1.take (so.1.length - so.2.rest.length), so.2.c1))

/-- Unanchored test (`RegExp.prototype.test`). -/
def reTest (r : RE) (s : Str) : Bool := (scanFirst r s).isSome

/-- Highest-priority outcome consuming the whole string (a regex anchored
as `^...$`). -/
def fullFirst (r : RE) (s : Str) : Option MOut :=
  (mtch r s).find? (fun o => o.rest.isEmpty)

/-- Anchored test for a `^...$` regex. -/
def fullTest (r : RE) (s : Str) : Bool := (fullFirst r s).isSome

/-- All matches of a global regex, scanning from the end of each previous
match (fuel-driven; every pattern used with the global flag here consumes at
least one character per match, the empty-match guard only serves
termination). -/
def allMatchesFuel (r : RE) : Nat → Str → List Str
  | 0, _ => []
  | fuel + 1, s =>
    match scanFirst r s with
    | none => []
    | some (suf, o) =>
      let m := suf.take (suf.length - o.rest.length)
      if m.isEmpty then []
      else m :: allMatchesFuel r fuel o.rest

/-- JavaScript `text.match(re)` with the global flag: list of all match
texts. -/
def allMatches (r : RE) (s : Str) : List Str :=
  allMatchesFuel r (s.length + 1) s

/-- Single literal character. -/
def reChar (c : Char) : RE := .one (fun x => x == c)

/-- Case-insensitive literal character. -/
def reCharCI (c : Char) : RE := .one (fun x => x.toLower == c.toLower)

/-- Case-sensitive literal string. -/
def reStr (s : String) : RE :=
  s.data.foldr (fun c r => .seq (reChar c) r) .eps

/-- Case-insensitive literal string (a regex literal under the `i` flag). -/
def reStrCI (s : String) : RE :=
  s.data.foldr (fun c r => .seq (reCharCI c) r) .eps

/-- Prioritized alternation of a list of regexes. -/
def reAlt : List RE → RE
  | [] => .fails
  | r :: rs =>
    match rs with
    | [] => r
    | _ => .alt r (reAlt rs)

/-- Separator class `[-\/]` of the numeric date patterns. -/
def reSep : RE := .one (fun c => c == '-' || c == '/')

/-- The class `\d{1,2}`. -/
def d12 : RE := .repG isDigitC 1 2

/-- The class `\d{2}`. -/
def d22 : RE := .repG isDigitC 2 2

/-- The class `\d{2,4}`. -/
def d24 : RE := .repG isDigitC 2 4

/-- The class `\d{4}`. -/
def d44 : RE := .repG isDigitC 4 4

/-- The class `\s*`. -/
def wsStar : RE := .starG isWsC

/-- The class `\s+`. -/
def wsPlus : RE := .seq (.one isWsC) (.starG isWsC)

/-- Month-name alternation `(?:Jan|Feb|...|Dec)` under the `i` flag. -/
def monthRE : RE :=
  reAlt ([ "Jan", "Feb", "Mar", "Apr", "May", "Jun", "Jul", "Aug", "Sep",
    "Oct", "Nov", "Dec"].map reStrCI)

/-- The class `[a-z]*` under the `i` flag. -/
def alphaStar : RE := .starG (fun c => c.isAlpha)

/-- Date pattern 1: `(\d{1,2}[-\/]\d{1,2}[-\/]\d{4})`. -/
def dp1 : RE := .seq d12 (.seq reSep (.seq d12 (.seq reSep d44)))

/-- Date pattern 2: `(\d{4}[-\/]\d{1,2}[-\/]\d{1,2})`. -/
def dp2 : RE := .seq d44 (.seq reSep (.seq d12 (.seq reSep d12)))

/-- Date pattern 3: `(\d{1,2}\s+(?:Jan|...|Dec)[a-z]*\s+\d{4})` (i flag). -/
def dp3 : RE :=
  .seq d12 (.seq wsPlus (.seq monthRE (.seq alphaStar (.seq wsPlus d44))))

/-- Date pattern 4: `(?:Jan|...|Dec)[a-z]*\s+\d{1,2},?\s+\d{4}` (i flag). -/
def dp4 : RE :=
  .seq monthRE (.seq alphaStar (.seq wsPlus
    (.seq d12 (.seq (.opt (reChar ',')) (.seq wsPlus d44)))))

/-- Date pattern 5: `(\d{2}[-\/]\d{2}[-\/]\d{2})`. -/
def dp5 : RE := .seq d22 (.seq reSep (.seq d22 (.seq reSep d22)))

/-- The ordered date pattern list of the extractor (exactly five patterns;
there is no textual-month form with a 2-digit year). -/
def datePatterns : List RE := [dp1, dp2, dp3, dp4, dp5]

/-- A calendar date, the injected "current date" and the engine's resolved
date (`YYYY-MM-DD` in the JavaScript record). -/
structure CalDate where
  year : Nat
  month : Nat
  day : Nat
deriving DecidableEq

/-- Gregorian leap-year test. -/
def isLeap (y : Nat) : Bool := (y % 4 == 0 && y % 100 != 0) || y % 400 == 0

/-- Days in a month of a given year. -/
def daysInMonth (y m : Nat) : Nat :=
  if m == 2 then (if isLeap y then 29 else 28)
  else if m == 4 || m == 6 || m == 9 || m == 11 then 30
  else 31

/-- Real-calendar-date test (the JavaScript `new Date` validity check
`!isNaN(parsedDate.getTime())`). -/
def validDate (y m d : Nat) : Bool :=
  1 ≤ m && m ≤ 12 && 1 ≤ d && d ≤ daysInMonth y m

/-- Tokens of a date string: digit runs (with their length) and letter
runs. -/
inductive DTok where
  | num : Nat → Nat → DTok
  | word : Str → DTok
deriving DecidableEq

/-- Tokenizer helper, fuel-driven (each step consumes at least one
character). -/
def tokenizeFuel : Nat → Str → List DTok
  | 0, _ => []
  | _ + 1, [] => []
  | fuel + 1, c :: rest =>
    if c.isDigit then
      let ds := (c :: rest).takeWhile Char.isDigit
      DTok.num (digitsVal ds) ds.length :: tokenizeFuel fuel ((c :: rest).drop ds.length)
    else if c.isAlpha then
      let ws := (c :: rest).takeWhile Char.isAlpha
      DTok.word ws :: tokenizeFuel fuel ((c :: rest).drop ws.length)
    else tokenizeFuel fuel rest

/-- Split a date string into digit and letter runs, dropping separators. -/
def tokenize (s : Str) : List DTok := tokenizeFuel s.length s

/-- Full month names, for the month-name lookup of the date parser. -/
def monthNames : List Str :=
  [cs "january", cs "february", cs "march", cs "april", cs "may", cs "june",
   cs "july", cs "august", cs "september", cs "october", cs "november",
   cs "december"]

/-- Month number of a textual month token (JavaScript `new Date` accepts any
3-letters-or-longer prefix of a month name, case-insensitively). -/
def monthNum (w : Str) : Option Nat :=
  let lw := toLowerL w
  if 3 ≤ lw.length then
    (monthNames.findIdx? (fun m => lw.isPrefixOf m)).map (· + 1)
  else none

/-- Model of the JavaScript `new Date(string)` parse, the validity check and
`getFullYear`/`toISOString`, restricted to the string shapes the five date
patterns (after the 2-digit-year rewrite) can produce: `M-D-YYYY` /
`M/D/YYYY`, `YYYY-M-D`, `D Month YYYY` and `Month D, YYYY`.  The process
time zone is taken to be UTC, so `toISOString` returns the parsed calendar
date itself. -/
def jsParseDate (s : Str) : Option CalDate :=
  match tokenize s with
  | [DTok.num a la, DTok.num b _, DTok.num c lc] =>
    if la == 4 then (if validDate a b c then some ⟨a, b, c⟩ else none)
    else if lc == 4 then (if validDate c a b then some ⟨c, a, b⟩ else none)
    else none
  | [DTok.num d _, DTok.word w, DTok.num y ly] =>
    match monthNum w with
    | some m => if ly == 4 && validDate y m d then some ⟨y, m, d⟩ else none
    | none => none
  | [DTok.word w, DTok.num d _, DTok.num y ly] =>
    match monthNum w with
    | some m => if ly == 4 && validDate y m d then some ⟨y, m, d⟩ else none
    | none => none
  | _ => none

/-- The 2-digit-year pivot of the extractor: `year < 50 ? 2000+year :
1900+year`. -/
def pivotYear (y : Nat) : Nat := if y < 50 then 2000 + y else 1900 + y

/-- The extractor's rewrite of a bare `DD-DD-DD` match into a 4-digit-year
string before parsing (`dateStr` reassembly in the source). -/
def shortDateRewrite (m : Str) : Str :=
  if fullTest dp5 m then
    match splitSep m with
    | [p0, p1, p2] =>
      p0 ++ '-' :: p1 ++ '-' :: natDigits (pivotYear (digitsVal p2))
    | _ => m
  else m

/-- The date-extraction loop: try each pattern in order on the whole raw
text; on the first match that parses to a valid date with
`2000 < year ≤ now.year`, stop; otherwise fall through to the next pattern,
and finally to the injected current date. -/
def extractDateGo (now : CalDate) (text : Str) : List RE → CalDate
  | [] => now
  | p :: ps =>
    match firstMatch p text with
    | none => extractDateGo now text ps
    | some (m, _) =>
      match jsParseDate (shortDateRewrite m) with
      | none => extractDateGo now text ps
      | some d =>
        if 2000 < d.year ∧ d.year ≤ now.year then d
        else extractDateGo now text ps

/-- The date extractor of `parseReceiptText`. -/
def extractDate (text : Str) (now : CalDate) : CalDate :=
  extractDateGo now text datePatterns

/-- The `[:\s]*` run after an amount label. -/
def colonWsStar : RE := .starG (fun c => c == ':' || isWsC c)

/-- Label alternation of the first amount pattern:
`(?:TOTAL|AMOUNT DUE|GRAND TOTAL|BALANCE|NET AMOUNT)` (i flag). -/
def labelRE1 : RE :=
  reAlt [reStrCI "TOTAL", reStrCI "AMOUNT DUE", reStrCI "GRAND TOTAL",
    reStrCI "BALANCE", reStrCI "NET AMOUNT"]

/-- Label alternation of the second amount pattern: `(?:AMOUNT|PAYMENT)`
(i flag). -/
def labelRE2 : RE := reAlt [reStrCI "AMOUNT", reStrCI "PAYMENT"]

/-- Currency alternation of the labeled-amount patterns:
`(?:PHP|₱|\$|Rs\.?|PHP\s|₱\s|\$\s)` (i flag). -/
def currencyRE : RE :=
  reAlt [reStrCI "PHP", reStrCI "₱", reStrCI "$",
    .seq (reStrCI "Rs") (.opt (reChar '.')),
    .seq (reStrCI "PHP") (.one isWsC),
    .seq (reStrCI "₱") (.one isWsC),
    .seq (reStrCI "$") (.one isWsC)]

/-- Currency alternation of the fallback and item patterns:
`(?:PHP|₱|\$|Rs\.?)` (no `i` flag). -/
def currencyRE2 : RE :=
  reAlt [reStr "PHP", reStr "₱", reStr "$",
    .seq (reStr "Rs") (.opt (reChar '.'))]

/-- The captured amount of the labeled patterns: `([\d,]+\.?\d*)`. -/
def numLoose : RE :=
  .seq (.one isDigitComma) (.seq (.starG isDigitComma)
    (.seq (.opt (reChar '.')) (.starG isDigitC)))

/-- A two-decimal number: `[\d,]+\.\d{2}`. -/
def numDD : RE :=
  .seq (.one isDigitComma) (.seq (.starG isDigitComma)
    (.seq (reChar '.') (.seq (.one isDigitC) (.one isDigitC))))

/-- First amount pattern:
`(?:TOTAL|AMOUNT DUE|GRAND TOTAL|BALANCE|NET AMOUNT)[:\s]*(?:currency)?\s*([\d,]+\.?\d*)` (i flag). -/
def tp1 : RE :=
  .seq labelRE1 (.seq colonWsStar (.seq (.opt currencyRE)
    (.seq wsStar (.grp 1 numLoose))))

/-- Second amount pattern:
`(?:AMOUNT|PAYMENT)[:\s]*(?:currency)?\s*([\d,]+\.?\d*)` (i flag). -/
def tp2 : RE :=
  .seq labelRE2 (.seq colonWsStar (.seq (.opt currencyRE)
    (.seq wsStar (.grp 1 numLoose))))

/-- Fallback amount pattern (global):
`(?:PHP|₱|\$|Rs\.?)?\s*([\d,]+\.\d{2})`. -/
def fb : RE :=
  .seq (.opt currencyRE2) (.seq wsStar (.grp 1 numDD))

/-- One step of the labeled-amount loop: take the first match of a pattern
in the text, parse its captured group with commas removed, and accept it
only when `0 < value < 1,000,000`; a missing match, an unparseable value and
an out-of-range value all fall through to the next pattern. -/
def tryPattern (r : RE) (text : Str) : Option Rat :=
  match firstMatch r text with
  | some (_, some cap) =>
    match jsParseFloat (removeCommas cap) with
    | some v => if 0 < v ∧ v < 1000000 then some v else none
    | none => none
  | _ => none

/-- Phase 1 of the amount extractor: the two labeled patterns in priority
order; `0` when neither yields an accepted value. -/
def phase1Total (text : Str) : Rat :=
  match tryPattern tp1 text with
  | some v => v
  | none =>
    match tryPattern tp2 text with
    | some v => v
    | none => 0

/-- The non-empty lines of the raw text:
`text.split('\n').filter(line => line.trim())`.  The surviving lines are
kept verbatim (they are not trimmed). -/
def linesOf (text : Str) : List Str :=
  (jsSplit text).filter (fun l => !(jsTrim l).isEmpty)

/-- Last `n` elements of a list (JavaScript `slice(-n)`). -/
def lastN (n : Nat) (l : List α) : List α := l.drop (l.length - n)

/-- Join lines with newlines (JavaScript `join('\n')`). -/
def joinNl : List Str → Str
  | [] => []
  | [l] => l
  | l :: ls => l ++ '\n' :: joinNl ls

/-- Join strings with single spaces (JavaScript `join(' ')`). -/
def joinSpace : List Str → Str
  | [] => []
  | [l] => l
  | l :: ls => l ++ ' ' :: joinSpace ls

/-- Phase 2 of the amount extractor: every match of the global fallback
pattern in the last 10 non-empty lines, stripped to digits and dots, parsed,
and filtered to the open range `(0, 1,000,000)` (a `NaN` fails both
comparisons and is dropped). -/
def fallbackAmounts (lines : List Str) : List Rat :=
  (allMatches fb (joinNl (lastN 10 lines))).filterMap (fun n =>
    match jsParseFloat (keepDigitsDots n) with
    | some v => if 0 < v ∧ v < 1000000 then some v else none
    | none => none)

/-- The amount extractor: phase 1 if it accepted a value, otherwise the
maximum of the phase-2 fallback amounts, otherwise `0`. -/
def extractTotal (text : Str) (lines : List Str) : Rat :=
  let t1 := phase1Total text
  if t1 = 0 then
    match fallbackAmounts lines with
    | [] => 0
    | a :: as => List.foldl max a as
  else t1

/-- The short numeric date shape `^\d{1,2}[-\/]\d{1,2}[-\/]\d{2,4}$` that
disqualifies a merchant line. -/
def merchDateRE : RE := .seq d12 (.seq reSep (.seq d12 (.seq reSep d24)))

/-- The all-digits shape `^\d+$` that disqualifies a merchant line. -/
def allDigitsRE : RE := .seq (.one isDigitC) (.starG isDigitC)

/-- Merchant-line qualification test on a trimmed line: longer than 3
characters, not purely digits, not a short numeric date. -/
def merchQualifies (t : Str) : Bool :=
  decide (3 < t.length) && !(fullTest allDigitsRE t) && !(fullTest merchDateRE t)

/-- The merchant-collection loop of the source, parameterized by the
remaining capacity (the source pushes qualifying trimmed lines into an array
and breaks as soon as the array holds 2):  with capacity `k`, a qualifying
line is kept, and the loop stops when the capacity is exhausted. -/
def merchGo : Nat → List Str → List Str
  | _, [] => []
  | k, l :: ls =>
    let t := jsTrim l
    if merchQualifies t then
      if k ≤ 1 then [t] else t :: merchGo (k - 1) ls
    else merchGo k ls

/-- The merchant extractor: up to 2 qualifying trimmed lines among the first
5 lines, joined with single spaces and truncated to 100 characters
(`substring(0, 100)`); the placeholder when no line qualifies. -/
def extractMerchant (lines : List Str) : Str :=
  let pot := merchGo 2 (lines.take 5)
  if pot.isEmpty then cs "Unknown Merchant" else (joinSpace pot).take 100

/-- Item pattern: `^(.+?)\s+(?:PHP|₱|\$|Rs\.?)?\s*([\d,]+\.\d{2})$`
(`.` excludes line terminators). -/
def itemRE : RE :=
  .seq (.grp 1 (.plusL (fun c => !(c == '\n') && !(c == '\r'))))
    (.seq wsPlus (.seq (.opt currencyRE2) (.seq wsStar (.grp 2 numDD))))

/-- Exclusion keywords of the item extractor:
`(TOTAL|AMOUNT|SUBTOTAL|TAX|BALANCE|CHANGE|DISCOUNT)` (i flag). -/
def exclRE : RE :=
  reAlt [reStrCI "TOTAL", reStrCI "AMOUNT", reStrCI "SUBTOTAL",
    reStrCI "TAX", reStrCI "BALANCE", reStrCI "CHANGE", reStrCI "DISCOUNT"]

/-- One line of the item extractor: an anchored name-plus-price match whose
trimmed name avoids the exclusion keywords and whose price lies strictly
between `0` and `0.9 ×` the resolved total. -/
def itemOfLine (total : Rat) (line : Str) : Option (Str × Rat) :=
  match fullFirst itemRE line with
  | none => none
  | some o =>
    match o.c1, o.c2 with
    | some g1, some g2 =>
      let name := jsTrim g1
      match jsParseFloat (removeCommas g2) with
      | some price =>
        if reTest exclRE name = false ∧ 0 < price ∧ price < total * (9 / 10) then
          some (name, price)
        else none
      | none => none
    | _, _ => none

/-- The item extractor over all non-empty lines, preserving order. -/
def extractItems (lines : List Str) (total : Rat) : List (Str × Rat) :=
  lines.filterMap (itemOfLine total)

/-- The category keyword table of the source, in its object-literal order
(the classifier tests the categories in this order and the first hit
wins). -/
def categoryKeywords : List (String × List Str) :=
  [("Food & Dining",
    [cs "restaurant", cs "cafe", cs "coffee", cs "food", cs "pizza",
     cs "burger", cs "diner", cs "kitchen", cs "grill", cs "bistro",
     cs "mcdonald", cs "jollibee", cs "kfc"]),
   ("Groceries",
    [cs "grocery", cs "supermarket", cs "market", cs "store", cs "mart",
     cs "sari", cs "puregold", cs "sm", cs "savemore"]),
   ("Utilities",
    [cs "electric", cs "water", cs "internet", cs "telco", cs "utility",
     cs "meralco", cs "pldt", cs "globe", cs "smart", cs "converge"]),
   ("Transportation",
    [cs "gas", cs "fuel", cs "taxi", cs "transport", cs "parking",
     cs "grab", cs "angkas", cs "shell", cs "petron", cs "caltex"]),
   ("Shopping",
    [cs "mall", cs "shop", cs "retail", cs "boutique", cs "department",
     cs "robinson", cs "ayala", cs "lazada", cs "shopee"]),
   ("Healthcare",
    [cs "pharmacy", cs "hospital", cs "clinic", cs "medical", cs "drug",
     cs "mercury", cs "watsons", cs "south star"])]

/-- The classifier loop: first category one of whose keywords occurs in the
lower-cased merchant or the lower-cased raw text. -/
def classifyGo (ml tl : Str) : List (String × List Str) → String
  | [] => "Uncategorized"
  | (cat, kws) :: rest =>
    if kws.any (fun k => containsSub ml k || containsSub tl k) then cat
    else classifyGo ml tl rest

/-- The engine's output record.  The source's returned object has exactly
the keys `merchant`, `date`, `total`, `items`, `category` and `rawText`; it
never carries a `warning` key, which the optional `warning` field models as
`none`. -/
structure ParsedReceipt where
  merchant : Str
  date : CalDate
  total : Rat
  items : List (Str × Rat)
  category : String
  rawText : Str
  warning : Option String
deriving DecidableEq

/-- The receipt parser `parseReceiptText` of `src/services/ocr.js`, with the
process clock injected as `now`. -/
def parseReceiptText (text : Str) (now : CalDate) : ParsedReceipt :=
  let lines := linesOf text
  let merchant := extractMerchant lines
  let date := extractDate text now
  let total := extractTotal text lines
  let items := extractItems lines total
  let category := classifyGo (toLowerL merchant) (toLowerL text) categoryKeywords
  { merchant := merchant, date := date, total := total, items := items,
    category := category, rawText := text, warning := none }

/-- A fixed injected current date used by the concrete test inputs. -/
def now0 : CalDate := ⟨2026, 1, 15⟩

/-- Keywords of the five categories the classifier tests before
Healthcare, in test order. -/
def earlierKW : List Str :=
  (categoryKeywords.take 5).flatMap (fun p => p.2)

/-- Written from the claim's words (C8): split on line breaks, discard
lines empty after trimming, and trim every remaining line. -/
def specNormalizedLines (text : Str) : List Str :=
  ((jsSplit text).filter (fun l => !(jsTrim l).isEmpty)).map jsTrim

/-- Written from the claim's words (C9): the first at-most-2 qualifying
lines among the first 5 normalized lines. -/
def specMerchantLines (text : Str) : List Str :=
  ((((linesOf text).take 5).map jsTrim).filter merchQualifies).take 2

/-- Written from the claim's words (C9): the qualifying lines space-joined
and truncated to 100 characters, with the placeholder when none
qualifies. -/
def specMerchant (text : Str) : Str :=
  if (specMerchantLines text).isEmpty then cs "Unknown Merchant"
  else (joinSpace (specMerchantLines text)).take 100

/-- An accepted labeled-amount value lies in the open range
`(0, 1,000,000)`. -/
theorem tryPattern_some {r : RE} {t : Str} {v : Rat}
    (h : tryPattern r t = some v) : 0 < v ∧ v < 1000000 := by
  unfold tryPattern at h
  split at h
  · split at h
    · split at h
      · injection h with h2
        subst h2
        assumption
      · exact absurd h (by simp)
    · exact absurd h (by simp)
  · exact absurd h (by simp)

/-- Phase 1 either resolves nothing (`0`) or an in-range value. -/
theorem phase1_cases (text : Str) :
    phase1Total text = 0 ∨
      (0 < phase1Total text ∧ phase1Total text < 1000000) := by
  unfold phase1Total
  split
  · next v hv => right; exact tryPattern_some hv
  · split
    · next v hv => right; exact tryPattern_some hv
    · left; rfl

/-- Every fallback amount lies in the open range `(0, 1,000,000)`. -/
theorem mem_fallbackAmounts {v : Rat} {ls : List Str}
    (h : v ∈ fallbackAmounts ls) : 0 < v ∧ v < 1000000 := by
  unfold fallbackAmounts at h
  rw [List.mem_filterMap] at h
  obtain ⟨n, _, hn⟩ := h
  split at hn
  · split at hn
    · injection hn with h2
      subst h2
      assumption
    · exact absurd hn (by simp)
  · exact absurd hn (by simp)

/-- A left fold of `max` returns its seed or an element of the list. -/
theorem foldl_max_mem (l : List Rat) :
    ∀ a : Rat, List.foldl max a l = a ∨ List.foldl max a l ∈ l := by
  induction l with
  | nil => intro a; left; rfl
  | cons b bs ih =>
    intro a
    rcases ih (max a b) with h | h
    · rw [List.foldl_cons, h]
      rcases max_choice a b with h2 | h2
      · left; exact h2
      · right; rw [h2]; exact List.mem_cons_self b bs
    · right
      rw [List.foldl_cons]
      exact List.mem_cons_of_mem b h

/-- The seed is bounded by a left fold of `max`. -/
theorem le_foldl_max (l : List Rat) : ∀ a : Rat, a ≤ List.foldl max a l := by
  induction l with
  | nil => intro a; exact le_refl a
  | cons b bs ih =>
    intro a
    rw [List.foldl_cons]
    exact le_trans (le_max_left a b) (ih (max a b))

/-- Every list element is bounded by a left fold of `max`. -/
theorem mem_le_foldl_max {x : Rat} {l : List Rat} (hx : x ∈ l) :
    ∀ a : Rat, x ≤ List.foldl max a l := by
  induction l with
  | nil => cases hx
  | cons b bs ih =>
    intro a
    rw [List.foldl_cons]
    rcases List.mem_cons.mp hx with h | h
    · subst h
      exact le_trans (le_max_right a x) (le_foldl_max bs (max a x))
    · exact ih h (max a b)

/-- The merchant-collection loop with capacity `k ≥ 1` collects the first
`k` qualifying trimmed lines: it equals `take k` of the filtered trimmed
lines. -/
theorem merchGo_eq (ls : List Str) : ∀ k : Nat, 1 ≤ k →
    merchGo k ls = ((ls.map jsTrim).filter merchQualifies).take k := by
  induction ls with
  | nil => intro k _; simp [merchGo]
  | cons l t ih =>
    intro k hk
    rw [List.map_cons]
    by_cases hq : merchQualifies (jsTrim l) = true
    · rw [List.filter_cons_of_pos hq]
      show (if merchQualifies (jsTrim l) then
        if k ≤ 1 then [jsTrim l] else jsTrim l :: merchGo (k - 1) t
        else merchGo k t) = _
      rw [if_pos hq]
      by_cases hk1 : k ≤ 1
      · have hk2 : k = 1 := le_antisymm hk1 hk
        subst hk2
        rw [if_pos (le_refl 1)]
        rfl
      · rw [if_neg hk1]
        rw [ih (k - 1) (by omega)]
        cases k with
        | zero => omega
        | succ k2 =>
          rw [List.take_succ_cons]
          congr 1
    · rw [List.filter_cons_of_neg hq]
      show (if merchQualifies (jsTrim l) then
        if k ≤ 1 then [jsTrim l] else jsTrim l :: merchGo (k - 1) t
        else merchGo k t) = _
      rw [if_neg hq]
      exact ih k hk

/-- The joined merchant candidates are at least as long as the first
candidate. -/
theorem length_joinSpace_head (t : Str) (rest : List Str) :
    t.length ≤ (joinSpace (t :: rest)).length := by
  cases rest with
  | nil => exact le_refl _
  | cons r rs =>
    show t.length ≤ (t ++ ' ' :: joinSpace (r :: rs)).length
    rw [List.length_append]
    omega

/-- With a resolved total of `0`, no line can pass the strict price window
`0 < price < 0.9 * 0`. -/
theorem itemOfLine_zero (line : Str) : itemOfLine 0 line = none := by
  unfold itemOfLine
  split
  · rfl
  · split
    · split
      · rw [if_neg]
        rintro ⟨-, h2, h3⟩
        rw [zero_mul] at h3
        exact absurd (h2.trans h3) (lt_irrefl 0)
      · rfl
    · rfl

/-- C1 counterexample: on the empty text the resolved total is `0`
(extraction fails), yet the returned record carries no warning field, so
"warning is present if and only if total equals 0" is false. -/
theorem c1_counterexample :
    (parseReceiptText (cs "") now0).total = 0 ∧
      (parseReceiptText (cs "") now0).warning = none := by decide

/-- C1 (amended): the record returned by `parseReceiptText` never contains
a warning field, whatever the input text and clock; an unresolved total is
signaled only by the total being `0` itself. -/
theorem c1_warning_never_present (text : Str) (now : CalDate) :
    (parseReceiptText text now).warning = none := rfl

/-- C3 counterexample: on the text `"JUL 20, 25"` (which contains no
4-digit-year date) the resolved date is the injected current date, not
`2025-07-20`: no pattern of the extractor recognizes textual month + day +
2-digit year. -/
theorem c3_counterexample :
    (parseReceiptText (cs "JUL 20, 25") now0).date = now0 ∧
      (parseReceiptText (cs "JUL 20, 25") now0).date ≠ ⟨2025, 7, 20⟩ := by
  decide

/-- C3 (amended): the date pattern list has exactly five forms and none of
them matches textual month + day + 2-digit year, so for the text
`"JUL 20, 25"` every pattern fails and the resolved date is the injected
current date, whatever it is. -/
theorem c3_two_digit_textual_month_falls_back (now : CalDate) :
    (parseReceiptText (cs "JUL 20, 25") now).date = now := rfl

/-- C8 counterexample: the line `"  a  "` survives normalization verbatim,
with its surrounding whitespace, so "every remaining line trimmed of
surrounding whitespace" is false. -/
theorem c8_counterexample :
    linesOf (cs "  a  ") = [cs "  a  "] ∧
      linesOf (cs "  a  ") ≠ specNormalizedLines (cs "  a  ") := by decide

/-- C8 (amended): the normalizer returns exactly the lines obtained by
splitting on line breaks with every line that is empty after trimming
discarded and the original order preserved, but the surviving lines are
kept verbatim (not trimmed): every kept line has non-empty trim, the kept
lines form a sublist of the split, and every split line with non-empty
trim is kept. -/
theorem c8_lines_split_filter_untrimmed (text : Str) :
    (∀ l ∈ linesOf text, jsTrim l ≠ []) ∧
      List.Sublist (linesOf text) (jsSplit text) ∧
      (∀ l ∈ jsSplit text, jsTrim l ≠ [] → l ∈ linesOf text) := by
  refine ⟨?_, ?_, ?_⟩
  · intro l hl
    have h2 := (List.mem_filter.mp hl).2
    simpa using h2
  · exact List.filter_sublist (jsSplit text)
  · intro l hl hne
    refine List.mem_filter.mpr ⟨hl, ?_⟩
    simpa using hne

/-- C6: for every input text and clock, the resolved total lies in
`[0, 1,000,000)`: phase 1 only accepts values in the open range, the
fallback maximum is taken over values in the open range, and the
unresolved case is `0`. -/
theorem c6_total_range (text : Str) (now : CalDate) :
    0 ≤ (parseReceiptText text now).total ∧
      (parseReceiptText text now).total < 1000000 := by
  have hrt : (parseReceiptText text now).total =
      extractTotal text (linesOf text) := rfl
  rw [hrt]
  unfold extractTotal
  by_cases h0 : phase1Total text = 0
  · rw [if_pos h0]
    cases hfa : fallbackAmounts (linesOf text) with
    | nil => norm_num
    | cons a as =>
      have hmem : List.foldl max a as ∈ fallbackAmounts (linesOf text) := by
        rw [hfa]
        rcases foldl_max_mem as a with h | h
        · rw [h]; exact List.mem_cons_self a as
        · exact List.mem_cons_of_mem a h
      have hr := mem_fallbackAmounts hmem
      exact ⟨le_of_lt hr.1, hr.2⟩
  · rw [if_neg h0]
    rcases phase1_cases text with h | h
    · exact absurd h h0
    · exact ⟨le_of_lt h.1, h.2⟩

/-- The year of the date-extraction loop's result stays in
`(2000, now.year]` whenever the injected clock's year exceeds 2000: every
accepted candidate passes that exact guard, and the final fallback is the
clock itself. -/
theorem extractDateGo_year (now : CalDate) (text : Str) (h : 2000 < now.year) :
    ∀ ps : List RE, 2000 < (extractDateGo now text ps).year ∧
      (extractDateGo now text ps).year ≤ now.year := by
  intro ps
  induction ps with
  | nil => exact ⟨h, le_refl _⟩
  | cons p ps2 ih =>
    show 2000 < (extractDateGo now text (p :: ps2)).year ∧ _
    unfold extractDateGo
    split
    · exact ih
    · split
      · exact ih
      · split
        · next hcond => exact hcond
        · exact ih

/-- C7: for every input text and injected current date with year above
2000, the resolved date's year lies in `(2000, currentYear]`: candidates
outside the bound are skipped and the fallback is the current date. -/
theorem c7_date_year_range (text : Str) (now : CalDate)
    (h : 2000 < now.year) :
    2000 < (parseReceiptText text now).date.year ∧
      (parseReceiptText text now).date.year ≤ now.year := by
  have hrt : (parseReceiptText text now).date = extractDate text now := rfl
  rw [hrt]
  exact extractDateGo_year now text h datePatterns

/-- Witness for `c7_date_year_range` at a concrete input. -/
theorem c7_date_year_range_witness :
    2000 < (parseReceiptText (cs "zzz") now0).date.year ∧
      (parseReceiptText (cs "zzz") now0).date.year ≤ now0.year :=
  c7_date_year_range (cs "zzz") now0 (by decide)

/-- With a resolved total of `0` the item extractor accepts nothing. -/
theorem extractItems_zero (ls : List Str) : extractItems ls 0 = [] := by
  induction ls with
  | nil => rfl
  | cons l t ih =>
    show List.filterMap (itemOfLine 0) (l :: t) = []
    rw [List.filterMap_cons_none (itemOfLine_zero l)]
    exact ih

/-- C10: whenever the resolved total is `0` (unresolved), the items list is
empty, because an item's price must be strictly positive and strictly below
`0.9 ×` the total. -/
theorem c10_zero_total_no_items (text : Str) (now : CalDate)
    (h : (parseReceiptText text now).total = 0) :
    (parseReceiptText text now).items = [] := by
  have h0 : extractTotal text (linesOf text) = 0 := h
  have hit : (parseReceiptText text now).items =
      extractItems (linesOf text) (extractTotal text (linesOf text)) := rfl
  rw [hit, h0]
  exact extractItems_zero (linesOf text)

/-- Witness for `c10_zero_total_no_items` at a concrete input. -/
theorem c10_zero_total_no_items_witness :
    (parseReceiptText (cs "x") now0).items = [] :=
  c10_zero_total_no_items (cs "x") now0 (by decide)

/-- C2 counterexample: in an 11-line text whose two-decimal numbers are
`99.00` (first line) and `5.00` (last line) and which has no total label,
the fallback resolves `5.00`, not the text-wide maximum `99.00`: the
fallback scans only the last 10 non-empty lines. -/
theorem c2_counterexample :
    (parseReceiptText (cs "99.00\na\na\na\na\na\na\na\na\na\n5.00") now0).total
        = 5 ∧
      (parseReceiptText (cs "99.00\na\na\na\na\na\na\na\na\na\n5.00") now0).total
        ≠ 99 ∧
      containsSub (cs "99.00\na\na\na\na\na\na\na\na\na\n5.00") (cs "99.00")
        = true := by decide

/-- C2 (amended): when phase 1 resolves nothing, the total is the maximum
of the in-range two-decimal numbers found in the last 10 non-empty lines of
the text (not the entire text): it is one of the fallback amounts and
bounds every fallback amount. -/
theorem c2_fallback_max_last10 (text : Str) (now : CalDate)
    (h1 : phase1Total text = 0)
    (h2 : fallbackAmounts (linesOf text) ≠ []) :
    (parseReceiptText text now).total ∈ fallbackAmounts (linesOf text) ∧
      ∀ v ∈ fallbackAmounts (linesOf text),
        v ≤ (parseReceiptText text now).total := by
  have hrt : (parseReceiptText text now).total =
      extractTotal text (linesOf text) := rfl
  rw [hrt]
  unfold extractTotal
  rw [if_pos h1]
  cases hfa : fallbackAmounts (linesOf text) with
  | nil => exact absurd hfa h2
  | cons a as =>
    constructor
    · show List.foldl max a as ∈ a :: as
      rcases foldl_max_mem as a with h | h
      · rw [h]; exact List.mem_cons_self a as
      · exact List.mem_cons_of_mem a h
    · intro v hv
      show v ≤ List.foldl max a as
      rcases List.mem_cons.mp hv with h | h
      · subst h; exact le_foldl_max as v
      · exact mem_le_foldl_max h a

/-- Witness for `c2_fallback_max_last10`: the three-line text of the
claim's scenario, whose only two-decimal numbers are 45.00, 12.50 and
97.00. -/
theorem c2_fallback_max_last10_witness :
    (parseReceiptText (cs "45.00\n12.50\n97.00") now0).total
        ∈ fallbackAmounts (linesOf (cs "45.00\n12.50\n97.00")) ∧
      ∀ v ∈ fallbackAmounts (linesOf (cs "45.00\n12.50\n97.00")),
        v ≤ (parseReceiptText (cs "45.00\n12.50\n97.00") now0).total :=
  c2_fallback_max_last10 (cs "45.00\n12.50\n97.00") now0 (by decide)
    (by decide)

/-- C5 counterexample: in `"BALANCE 50.00 TOTAL 100.00"` both labeled
values are in range and one match contains the token `TOTAL`, yet the
resolved total is `50`: the extractor keeps only the first (leftmost) match
of the first pattern, with no collect-all and no `TOTAL` override. -/
theorem c5_counterexample :
    (parseReceiptText (cs "BALANCE 50.00 TOTAL 100.00") now0).total = 50 ∧
      (parseReceiptText (cs "BALANCE 50.00 TOTAL 100.00") now0).total ≠ 100 ∧
      containsSub (cs "BALANCE 50.00 TOTAL 100.00") (cs "TOTAL 100.00")
        = true := by decide

/-- C5 (amended): phase 1 considers only the first (leftmost) match of
each of its two patterns, in pattern order; whenever the first pattern's
first match carries a captured value that parses into the open range
`(0, 1,000,000)`, that value is the resolved total, whatever else occurs
in the text. -/
theorem c5_first_pattern_first_match (text : Str) (now : CalDate)
    (m cap : Str) (v : Rat)
    (h1 : firstMatch tp1 text = some (m, some cap))
    (h2 : jsParseFloat (removeCommas cap) = some v)
    (h3 : 0 < v) (h4 : v < 1000000) :
    (parseReceiptText text now).total = v := by
  have hrt : (parseReceiptText text now).total =
      extractTotal text (linesOf text) := rfl
  rw [hrt]
  have htp : tryPattern tp1 text = some v := by
    unfold tryPattern
    rw [h1]
    show (match jsParseFloat (removeCommas cap) with
      | some v => if 0 < v ∧ v < 1000000 then some v else none
      | none => none) = some v
    rw [h2]
    show (if 0 < v ∧ v < 1000000 then some v else none) = some v
    rw [if_pos ⟨h3, h4⟩]
  have hp1 : phase1Total text = v := by
    unfold phase1Total
    rw [htp]
  unfold extractTotal
  rw [hp1, if_neg (ne_of_gt h3)]

/-- Witness for `c5_first_pattern_first_match` at a concrete labeled
receipt line. -/
theorem c5_first_pattern_first_match_witness :
    (parseReceiptText (cs "TOTAL 42.00") now0).total = 42 :=
  c5_first_pattern_first_match (cs "TOTAL 42.00") now0
    (cs "TOTAL 42.00") (cs "42.00") 42 (by decide) (by decide) (by decide)
    (by decide)

/-- A keyword list whose every keyword misses both the merchant and the
text fails its any-test. -/
theorem any_false_of_all_not (ml tl : Str) (kws : List Str)
    (h : ∀ k ∈ kws, containsSub ml k = false ∧ containsSub tl k = false) :
    kws.any (fun k => containsSub ml k || containsSub tl k) = false := by
  induction kws with
  | nil => rfl
  | cons k t ih =>
    rcases h k (List.mem_cons_self k t) with ⟨h1, h2⟩
    simp only [List.any_cons, h1, h2, Bool.or_self, Bool.false_or]
    exact ih (fun x hx => h x (List.mem_cons_of_mem k hx))

/-- The classifier returns the final category of its table when every
earlier category's keyword test fails and the final category's test
succeeds. -/
theorem classifyGo_last (ml tl : Str) (pre : List (String × List Str))
    (cat : String) (kws : List Str)
    (hpre : ∀ p ∈ pre,
      p.2.any (fun k => containsSub ml k || containsSub tl k) = false)
    (hk : kws.any (fun k => containsSub ml k || containsSub tl k) = true) :
    classifyGo ml tl (pre ++ [(cat, kws)]) = cat := by
  induction pre with
  | nil =>
    show (if kws.any (fun k => containsSub ml k || containsSub tl k)
      then cat else classifyGo ml tl []) = cat
    rw [hk]
    rfl
  | cons p ps ih =>
    show (if p.2.any (fun k => containsSub ml k || containsSub tl k)
      then p.1 else classifyGo ml tl (ps ++ [(cat, kws)])) = cat
    rw [hpre p (List.mem_cons_self p ps)]
    simp only [Bool.false_eq_true, if_false]
    exact ih (fun q hq => hpre q (List.mem_cons_of_mem p hq))

/-- C4 counterexample: the merchant `"PHARMACY CAFE"` contains the keyword
`pharmacy`, yet the resolved category is `Food & Dining` (the keyword
`cafe` belongs to a category tested before Healthcare), so "Healthcare
regardless of which other keywords appear" is false. -/
theorem c4_counterexample :
    containsSub
        (toLowerL (parseReceiptText (cs "PHARMACY CAFE") now0).merchant)
        (cs "pharmacy") = true ∧
      (parseReceiptText (cs "PHARMACY CAFE") now0).category
        = "Food & Dining" ∧
      (parseReceiptText (cs "PHARMACY CAFE") now0).category
        ≠ "Healthcare" := by decide

/-- C4 (amended): an input whose resolved merchant contains `pharmacy`
classifies as Healthcare provided no keyword of the five categories tested
before Healthcare (Food & Dining, Groceries, Utilities, Transportation,
Shopping) occurs in the lower-cased merchant or the lower-cased raw
text. -/
theorem c4_pharmacy_wins_without_earlier_keyword (text : Str)
    (now : CalDate)
    (h1 : containsSub (toLowerL (parseReceiptText text now).merchant)
      (cs "pharmacy") = true)
    (h2 : earlierKW.all (fun k =>
      !(containsSub (toLowerL (parseReceiptText text now).merchant) k) &&
      !(containsSub (toLowerL text) k)) = true) :
    (parseReceiptText text now).category = "Healthcare" := by
  have hm : (parseReceiptText text now).merchant =
      extractMerchant (linesOf text) := rfl
  rw [hm] at h1 h2
  have hc : (parseReceiptText text now).category =
      classifyGo (toLowerL (extractMerchant (linesOf text))) (toLowerL text)
        categoryKeywords := rfl
  rw [hc]
  have hall := List.all_eq_true.mp h2
  have hpair : ∀ k ∈ earlierKW,
      containsSub (toLowerL (extractMerchant (linesOf text))) k = false ∧
      containsSub (toLowerL text) k = false := by
    intro k hk
    have hx := hall k hk
    rw [Bool.and_eq_true, Bool.not_eq_true', Bool.not_eq_true'] at hx
    exact hx
  have hcat : categoryKeywords = (categoryKeywords.take 5) ++
      [("Healthcare",
        [cs "pharmacy", cs "hospital", cs "clinic", cs "medical", cs "drug",
         cs "mercury", cs "watsons", cs "south star"])] := rfl
  rw [hcat]
  have hsub : ∀ p ∈ categoryKeywords.take 5, ∀ k ∈ p.2, k ∈ earlierKW := by
    decide
  apply classifyGo_last
  · intro p hp
    exact any_false_of_all_not _ _ _ (fun k hk => hpair k (hsub p hp k hk))
  · refine List.any_eq_true.mpr ⟨cs "pharmacy", by decide, ?_⟩
    simp [h1]

/-- Witness for `c4_pharmacy_wins_without_earlier_keyword` at a concrete
input containing only the keyword `pharmacy`. -/
theorem c4_pharmacy_wins_without_earlier_keyword_witness :
    (parseReceiptText (cs "PHARMACY") now0).category = "Healthcare" :=
  c4_pharmacy_wins_without_earlier_keyword (cs "PHARMACY") now0 (by decide)
    (by decide)

/-- C9: the resolved merchant equals the first at-most-2 qualifying
trimmed lines among the first 5 normalized lines, space-joined and
truncated to 100 characters, with the placeholder `"Unknown Merchant"`
when none qualifies; consequently the merchant is never empty and never
longer than 100 characters. -/
theorem c9_merchant (text : Str) (now : CalDate) :
    (parseReceiptText text now).merchant = specMerchant text ∧
      (parseReceiptText text now).merchant ≠ [] ∧
      (parseReceiptText text now).merchant.length ≤ 100 := by
  have hrt : (parseReceiptText text now).merchant =
      extractMerchant (linesOf text) := rfl
  have hm : extractMerchant (linesOf text) = specMerchant text := by
    unfold extractMerchant specMerchant specMerchantLines
    rw [merchGo_eq ((linesOf text).take 5) 2 (by norm_num)]
  rw [hrt, hm]
  refine ⟨rfl, ?_⟩
  unfold specMerchant
  cases hc : specMerchantLines text with
  | nil => exact ⟨by decide, by decide⟩
  | cons t rest =>
    have hq : merchQualifies t = true := by
      have ht : t ∈ specMerchantLines text := by
        rw [hc]
        exact List.mem_cons_self t rest
      have ht2 := List.mem_of_mem_take ht
      exact (List.mem_filter.mp ht2).2
    have hlen : 3 < t.length := by
      unfold merchQualifies at hq
      rw [Bool.and_eq_true, Bool.and_eq_true] at hq
      exact of_decide_eq_true hq.1.1
    constructor
    · show (joinSpace (t :: rest)).take 100 ≠ []
      intro hnil
      have hl := congrArg List.length hnil
      rw [List.length_take, List.length_nil] at hl
      have hj := length_joinSpace_head t rest
      omega
    · show ((joinSpace (t :: rest)).take 100).length ≤ 100
      rw [List.length_take]
      exact min_le_left _ _
